import Mathlib

/-!
Shallow embedding of the QuickPoll real-time polling application
(`main.go`): the record model (`Poll`, `Option`), the thread-safe store
(`Store`), and the SSE broadcaster (`Broadcaster`), together with proofs
of the specification's claims about them.

Modelling conventions:
* Go `time.Time` is modelled as a `Nat` tick count; the zero value of
  `time.Time` (`IsZero`) is modelled as `0`, and `a.After(b)` as `b < a`.
  The ambient `time.Now()` is passed explicitly as a `now` parameter.
* Go `float64` arithmetic in `VotePercentage` is modelled over `Rat`
  (exact real-number semantics of the same expressions).
* Go maps are modelled as association lists with at most one binding per
  key (`lookupKey` / `insertKey` / `eraseKey`); map iteration order is the
  list order.
* Fallible operations return `Option`/`Except`; a Go runtime panic
  (e.g. `close` of a closed channel) is modelled as `none`.
* Randomness (`generateID`) is modelled by passing the generated string
  explicitly as a parameter.
-/

namespace QuickPoll

/-- Association-list lookup, modelling Go map indexing `m[k]`. -/
def lookupKey [DecidableEq κ] (k : κ) : List (κ × β) → Option β
  | [] => none
  | (k', v) :: rest => if k' = k then some v else lookupKey k rest

/-- Remove every binding for key `k`, used to keep at most one binding per key. -/
def eraseKey [DecidableEq κ] (k : κ) (l : List (κ × β)) : List (κ × β) :=
  l.filter (fun kv => decide (kv.1 ≠ k))

/-- Association-list update, modelling Go map assignment `m[k] = v`. -/
def insertKey [DecidableEq κ] (k : κ) (v : β) (l : List (κ × β)) : List (κ × β) :=
  (k, v) :: eraseKey k l

/-- Go struct `Option`: a single voting option.  (Named `PollOption` here
because `Option` is Lean's built-in type.) -/
structure PollOption where
  ID : String
  Text : String
  Votes : Int
deriving DecidableEq

/-- Go struct `Poll`: a voting poll with multiple options.  Timestamps are
`Nat` ticks; `ExpiresAt = 0` models the zero `time.Time` (never expires). -/
structure Poll where
  ID : String
  Question : String
  Options : List PollOption
  CreatedAt : Nat
  ExpiresAt : Nat
deriving DecidableEq

/-- `func (p *Poll) TotalVotes() int`: sum of the votes of all options. -/
def Poll.TotalVotes (p : Poll) : Int :=
  p.Options.foldl (fun total opt => total + opt.Votes) 0

/-- `func (p *Poll) VotePercentage(optionID string) float64`, with the
float64 arithmetic modelled exactly over `Rat`. -/
def Poll.VotePercentage (p : Poll) (optionID : String) : Rat :=
  let total := p.TotalVotes
  if total = 0 then 0
  else
    match p.Options.find? (fun opt => decide (opt.ID = optionID)) with
    | some opt => (opt.Votes : Rat) / (total : Rat) * 100
    | none => 0

/-- `func (p *Poll) IsExpired() bool`: false when `ExpiresAt` is the zero
time, otherwise `time.Now().After(p.ExpiresAt)`. -/
def Poll.IsExpired (p : Poll) (now : Nat) : Bool :=
  if p.ExpiresAt = 0 then false else decide (p.ExpiresAt < now)

/-- `func copyPoll(p *Poll) *Poll`: field-by-field copy with a freshly
allocated options slice.  At the level of values the copy is identical;
the allocation behaviour is modelled separately in the heap model below. -/
def copyPoll (p : Poll) : Poll :=
  { ID := p.ID
    Question := p.Question
    Options := p.Options.map (fun o => o)
    CreatedAt := p.CreatedAt
    ExpiresAt := p.ExpiresAt }

/-- Go struct `Store`: thread-safe poll storage.  The `polls` map is an
association list keyed by poll ID; the mutex is implicit in the atomicity
of each operation (each Go method holds the lock for its whole body). -/
structure Store where
  polls : List (String × Poll)
deriving DecidableEq

/-- `func NewStore() *Store`. -/
def NewStore : Store := { polls := [] }

/-- `func (s *Store) Create(poll *Poll) error`: assign a generated ID if
absent, stamp `CreatedAt := now`, insert.  The generated ID and the clock
are explicit parameters; the Go method's in-place mutation of `poll` is
modelled by returning the stamped poll (the Go error is always nil). -/
def Store.Create (s : Store) (poll : Poll) (gen : String) (now : Nat) : Store × Poll :=
  let withID := if poll.ID = "" then { poll with ID := gen } else poll
  let stamped := { withID with CreatedAt := now }
  ({ polls := insertKey stamped.ID stamped s.polls }, stamped)

/-- `func (s *Store) Get(id string) (*Poll, bool)`: value copy plus found
flag, modelled as `Option Poll`. -/
def Store.Get (s : Store) (id : String) : Option Poll :=
  (lookupKey id s.polls).map copyPoll

/-- The three error strings `Vote` can return. -/
inductive VoteError where
  | pollNotFound
  | pollExpired
  | optionNotFound
deriving DecidableEq

/-- The in-place `poll.Options[i].Votes++` on the first option whose ID
matches: `none` when no option matches. -/
def incFirst (optionID : String) : List PollOption → Option (List PollOption)
  | [] => none
  | opt :: rest =>
    if opt.ID = optionID then some ({ opt with Votes := opt.Votes + 1 } :: rest)
    else (incFirst optionID rest).map (fun l => opt :: l)

/-- `func (s *Store) Vote(pollID, optionID string) (*Poll, error)`:
look up the poll, check expiry, increment the first matching option,
return a value copy of the updated poll.  The whole body runs under the
store mutex, so it is one atomic step on the store state; the pair
returns the result together with the (possibly updated) store. -/
def Store.Vote (s : Store) (pollID optionID : String) (now : Nat) :
    Except VoteError Poll × Store :=
  match lookupKey pollID s.polls with
  | none => (Except.error VoteError.pollNotFound, s)
  | some poll =>
    if poll.IsExpired now then (Except.error VoteError.pollExpired, s)
    else
      match incFirst optionID poll.Options with
      | none => (Except.error VoteError.optionNotFound, s)
      | some opts =>
        let updated := { poll with Options := opts }
        (Except.ok (copyPoll updated), { polls := insertKey pollID updated s.polls })

/-- The comparison `polls[i].CreatedAt.After(polls[j].CreatedAt)` made
non-strict: `q` may come after `p` in the sorted output iff
`q.CreatedAt ≤ p.CreatedAt`. -/
def newerEq (p q : Poll) : Prop := q.CreatedAt ≤ p.CreatedAt

instance : DecidableRel newerEq := fun p q => by
  unfold newerEq; infer_instance

instance : IsTotal Poll newerEq :=
  ⟨fun p q => Nat.le_total q.CreatedAt p.CreatedAt⟩

instance : IsTrans Poll newerEq :=
  ⟨fun _ _ _ h1 h2 => Nat.le_trans h2 h1⟩

/-- `func (s *Store) List() []*Poll`: value copies of all polls sorted by
creation date, newest first (`sort.Slice` with `CreatedAt.After`). -/
def Store.List (s : Store) : List Poll :=
  List.insertionSort newerEq (s.polls.map (fun kv => copyPoll kv.2))

/-- `func (s *Store) Delete(id string) bool`: remove if present, report
whether it existed. -/
def Store.Delete (s : Store) (id : String) : Bool × Store :=
  match lookupKey id s.polls with
  | some _ => (true, { polls := eraseKey id s.polls })
  | none => (false, s)

/-- A Go buffered channel of strings (`make(chan string, 10)`): pending
messages, capacity, and whether `close` has been called. -/
structure Chan where
  buf : List String
  cap : Nat
  closed : Bool
deriving DecidableEq

/-- Go struct `Broadcaster`: `subscribers` maps a poll ID to the set of
channels registered for it (`map[string]map[chan string]bool`).  Channel
values are modelled as addresses (`Nat`) into the `chans` heap, which
records every channel ever created; `next` is the allocation counter. -/
structure Broadcaster where
  subscribers : List (String × List Nat)
  chans : List (Nat × Chan)
  next : Nat
deriving DecidableEq

/-- `func NewBroadcaster() *Broadcaster`. -/
def NewBroadcaster : Broadcaster := { subscribers := [], chans := [], next := 0 }

/-- `func (b *Broadcaster) Subscribe(pollID string) chan string`: allocate
a fresh channel with buffer capacity 10, create the poll's listener set if
absent, register the channel, return it. -/
def Broadcaster.Subscribe (b : Broadcaster) (pollID : String) : Broadcaster × Nat :=
  let ch := b.next
  let subs :=
    match lookupKey pollID b.subscribers with
    | none => insertKey pollID [ch] b.subscribers
    | some l => insertKey pollID (ch :: l) b.subscribers
  ({ subscribers := subs
     chans := insertKey ch { buf := [], cap := 10, closed := false } b.chans
     next := b.next + 1 }, ch)

/-- `func (b *Broadcaster) Unsubscribe(pollID string, ch chan string)`:
when the poll has a listener-set map, delete `ch` from it and `close(ch)`;
when it has none, do nothing.  `close` of an already-closed (or never
allocated) channel is a Go runtime panic, modelled as `none`. -/
def Broadcaster.Unsubscribe (b : Broadcaster) (pollID : String) (ch : Nat) :
    Option Broadcaster :=
  match lookupKey pollID b.subscribers with
  | none => some b
  | some subs =>
    match lookupKey ch b.chans with
    | none => none
    | some c =>
      if c.closed then none
      else
        some { b with
          subscribers := insertKey pollID (subs.filter (fun x => decide (x ≠ ch))) b.subscribers
          chans := insertKey ch { c with closed := true } b.chans }

/-- The non-blocking send `select { case ch <- data: default: }`: enqueue
when the buffer has room, skip when full.  A send case on a closed channel
is chosen by `select` and panics, modelled as `none`. -/
def trySend (data : String) (c : Chan) : Option Chan :=
  if c.closed then none
  else if c.buf.length < c.cap then some { c with buf := c.buf ++ [data] }
  else some c

/-- One iteration of Broadcast's loop over the listener set: apply
`trySend` to each registered channel in turn, threading the channel heap. -/
def broadcastList (data : String) (chans : List (Nat × Chan)) :
    List Nat → Option (List (Nat × Chan))
  | [] => some chans
  | ch :: rest =>
    match lookupKey ch chans with
    | none => none
    | some c =>
      match trySend data c with
      | none => none
      | some c' => broadcastList data (insertKey ch c' chans) rest

/-- `func (b *Broadcaster) Broadcast(pollID string, data string)`: send
`data` to every subscriber of `pollID` with a non-blocking attempt each;
no listener set means nothing happens. -/
def Broadcaster.Broadcast (b : Broadcaster) (pollID data : String) :
    Option Broadcaster :=
  match lookupKey pollID b.subscribers with
  | none => some b
  | some subs =>
    (broadcastList data b.chans subs).map (fun chans' => { b with chans := chans' })

/-!
Heap model of the pointer structure behind `copyPoll`.  A Go `*Poll`
points at a struct whose `Options` field is a slice header pointing at a
backing array.  The struct cells live in `pollMem`, the backing arrays in
`arrMem`, both addressed by `Nat`; `next` is the allocation counter
(every live address is below it).  A caller holding a returned `*Poll`
can mutate exactly the struct cell at its address and the array cell its
options slice points at. -/

/-- The memory cell a `*Poll` points at: plain fields inline, the
`Options` slice as the address of its backing array. -/
structure PollMem where
  ID : String
  Question : String
  optsAddr : Nat
  CreatedAt : Nat
  ExpiresAt : Nat
deriving DecidableEq

/-- The heap: poll struct cells, option backing arrays, allocation counter. -/
structure Heap where
  pollMem : List (Nat × PollMem)
  arrMem : List (Nat × List PollOption)
  next : Nat
deriving DecidableEq

/-- All allocated addresses are below the allocation counter. -/
def Heap.wf (h : Heap) : Prop :=
  (∀ kv ∈ h.pollMem, kv.1 < h.next) ∧ (∀ kv ∈ h.arrMem, kv.1 < h.next)

/-- Dereference a `*Poll`: read the struct cell and, through it, the
options backing array, yielding the poll value a caller observes. -/
def Heap.readPoll (h : Heap) (a : Nat) : Option Poll :=
  (lookupKey a h.pollMem).bind fun m =>
    (lookupKey m.optsAddr h.arrMem).map fun opts =>
      { ID := m.ID
        Question := m.Question
        Options := opts
        CreatedAt := m.CreatedAt
        ExpiresAt := m.ExpiresAt }

/-- `copyPoll` at the heap level: read the source poll, allocate a fresh
backing array holding a copy of its options (`make` + `copy`), allocate a
fresh struct cell whose slice points at that array, return its address. -/
def Heap.copyPollH (h : Heap) (a : Nat) : Option (Heap × Nat) :=
  (lookupKey a h.pollMem).bind fun m =>
    (lookupKey m.optsAddr h.arrMem).map fun opts =>
      let arrAddr := h.next
      let pollAddr := h.next + 1
      ({ pollMem := insertKey pollAddr { m with optsAddr := arrAddr } h.pollMem
         arrMem := insertKey arrAddr (opts.map (fun o => o)) h.arrMem
         next := h.next + 2 }, pollAddr)

/-- `Store.Get` at the heap level: the store keeps poll addresses keyed by
ID; `Get` looks the address up and hands the caller a `copyPoll` of it. -/
def Heap.hGet (h : Heap) (storeMap : List (String × Nat)) (id : String) :
    Option (Heap × Nat) :=
  (lookupKey id storeMap).bind h.copyPollH

/-- Everything a caller can write through a returned `*Poll`: arbitrary
new contents for the struct cell at `a` and for the backing array at
`arrAddr` (the two addresses `copyPollH` allocated for the snapshot). -/
def Heap.writeSnap (h : Heap) (a arrAddr : Nat) (m : PollMem)
    (opts : List PollOption) : Heap :=
  { h with
    pollMem := insertKey a m h.pollMem
    arrMem := insertKey arrAddr opts h.arrMem }

/-!
Fine-grained interleaving model of `Store.Vote`'s critical section.  Each
of `n` concurrent `Vote(pollID, optionID)` callers executes, against one
shared option counter, the body of the Go method decomposed into its
atomic machine steps: acquire `s.mu` (`s.mu.Lock()`), read
`poll.Options[i].Votes` into a register, write back register + 1
(`poll.Options[i].Votes++` is a read then a write), release the mutex
(`s.mu.Unlock()`).  The scheduler may interleave the threads arbitrarily;
a step is only enabled when its guard (mutex free / held by the thread)
holds. -/

/-- Program counter plus register of one `Vote` caller. -/
inductive TS where
  | start
  | acquired
  | readDone (v : Nat)
  | written
  | finished
deriving DecidableEq

/-- Shared state: the option's vote counter, the store mutex, each
thread's local state. -/
structure VState (n : Nat) where
  counter : Nat
  lock : Option (Fin n)
  ts : Fin n → TS

/-- All threads at the start, counter at its pre-existing value, mutex free. -/
def vinit (n k : Nat) : VState n :=
  { counter := k, lock := none, ts := fun _ => TS.start }

/-- A scheduler decision: which thread takes its next machine step. -/
inductive VAct (n : Nat) where
  | acquire (t : Fin n)
  | readV (t : Fin n)
  | writeV (t : Fin n)
  | release (t : Fin n)

/-- One machine step; `none` when the chosen step is not enabled (the
thread is elsewhere in its code, or blocked on the mutex). -/
def vstep (s : VState n) : VAct n → Option (VState n)
  | VAct.acquire t =>
    if s.ts t = TS.start ∧ s.lock = none then
      some { s with lock := some t, ts := Function.update s.ts t TS.acquired }
    else none
  | VAct.readV t =>
    if s.ts t = TS.acquired ∧ s.lock = some t then
      some { s with ts := Function.update s.ts t (TS.readDone s.counter) }
    else none
  | VAct.writeV t =>
    match s.ts t with
    | TS.readDone v =>
      if s.lock = some t then
        some { s with counter := v + 1, ts := Function.update s.ts t TS.written }
      else none
    | _ => none
  | VAct.release t =>
    if s.ts t = TS.written ∧ s.lock = some t then
      some { s with lock := none, ts := Function.update s.ts t TS.finished }
    else none

/-- Run a schedule to completion; `none` when some chosen step was not
enabled. -/
def vrun (s : VState n) : List (VAct n) → Option (VState n)
  | [] => some s
  | a :: rest =>
    match vstep s a with
    | some s' => vrun s' rest
    | none => none

/-- Number of threads (in a thread-state assignment) whose increment has
already taken effect. -/
def doneC (ts : Fin n → TS) : Nat :=
  (Finset.univ.filter (fun t => ts t = TS.written ∨ ts t = TS.finished)).card

/-- Number of threads whose increment has already taken effect. -/
def doneCount (s : VState n) : Nat := doneC s.ts

/-- Inductive invariant of the voting machine: the counter counts exactly
the completed increments; any thread past `acquire` holds the mutex; a
register loaded under the mutex still equals the counter. -/
def VInv (k : Nat) (s : VState n) : Prop :=
  s.counter = k + doneCount s
  ∧ (∀ t, (s.ts t = TS.acquired ∨ (∃ v, s.ts t = TS.readDone v) ∨ s.ts t = TS.written) →
      s.lock = some t)
  ∧ (∀ t v, s.ts t = TS.readDone v → v = s.counter)

/-- Boolean check that every thread has finished (for concrete runs). -/
def allFinished (s : VState n) : Bool :=
  decide (∀ t, s.ts t = TS.finished)

/-- The votes of the first option with the given ID inside the given
poll, read off the store: the quantity `Vote` increments. -/
def optionVotes (s : Store) (pollID optionID : String) : Option Int :=
  (lookupKey pollID s.polls).bind fun p =>
    (p.Options.find? (fun opt => decide (opt.ID = optionID))).map PollOption.Votes

/-- `N` votes for the same option, in the serial order the store mutex
enforces. -/
def voteTimes (pollID optionID : String) (now : Nat) : Nat → Store → Store
  | 0, s => s
  | Nat.succ m, s => voteTimes pollID optionID now m (Store.Vote s pollID optionID now).2

/-- A repository operation together with its external inputs (clock,
generated ID). -/
inductive StoreOp where
  | create (p : Poll) (gen : String) (now : Nat)
  | vote (pollID optionID : String) (now : Nat)
  | delete (id : String)
  | get (id : String)
  | listAll
deriving DecidableEq

/-- Effect of one operation on the store (`Get`/`List` read only). -/
def applyOp (s : Store) : StoreOp → Store
  | StoreOp.create p gen now => (Store.Create s p gen now).1
  | StoreOp.vote pollID optionID now => (Store.Vote s pollID optionID now).2
  | StoreOp.delete id => (Store.Delete s id).2
  | StoreOp.get _ => s
  | StoreOp.listAll => s

/-- Run a sequence of operations. -/
def runOps (s : Store) : List StoreOp → Store
  | [] => s
  | op :: rest => runOps (applyOp s op) rest

/-- The ID under which `Create` stores a poll. -/
def createdID (p : Poll) (gen : String) : String :=
  if p.ID = "" then gen else p.ID

/-- A `Create` inserts under an ID not currently in use (other
operations are unconstrained). -/
def freshOK (s : Store) : StoreOp → Bool
  | StoreOp.create p gen _ => (lookupKey (createdID p gen) s.polls).isNone
  | _ => true

/-- Every `Create` in the sequence inserts under an ID not currently in
use (the spec's collision-resistant generator assumption). -/
def FreshCreates : Store → List StoreOp → Bool
  | _, [] => true
  | s, op :: rest => freshOK s op && FreshCreates (applyOp s op) rest

/-- The poll with ID `x` is still stored after every step of the sequence. -/
def PresentThrough (x : String) : Store → List StoreOp → Bool
  | _, [] => true
  | s, op :: rest =>
    (lookupKey x (applyOp s op).polls).isSome && PresentThrough x (applyOp s op) rest

/-- How one option may evolve over a poll's life: identity and text are
fixed, votes never decrease. -/
def optEvolves (a b : PollOption) : Prop :=
  a.ID = b.ID ∧ a.Text = b.Text ∧ a.Votes ≤ b.Votes

/-- How a stored poll may evolve: every field is fixed except the vote
counters, which never decrease (option count and order included). -/
def evolves (p q : Poll) : Prop :=
  p.ID = q.ID ∧ p.Question = q.Question ∧ p.CreatedAt = q.CreatedAt ∧
    p.ExpiresAt = q.ExpiresAt ∧ List.Forall₂ optEvolves p.Options q.Options

/-- The spec's worked percentage example: option `a` with 25 votes,
option `b` with 75. -/
def samplePoll : Poll :=
  { ID := "sample"
    Question := "sample"
    Options :=
      [ { ID := "a", Text := "A", Votes := 25 }
      , { ID := "b", Text := "B", Votes := 75 } ]
    CreatedAt := 0
    ExpiresAt := 0 }

/-- A tiny concrete store used by the witnesses: one live poll `"p"` with
two options, one expired poll `"q"`. -/
def sampleStore : Store :=
  { polls :=
      [ ("p", { ID := "p", Question := "Q?"
                Options :=
                  [ { ID := "a", Text := "A", Votes := 3 }
                  , { ID := "b", Text := "B", Votes := 5 } ]
                CreatedAt := 10, ExpiresAt := 0 })
      , ("q", { ID := "q", Question := "old?"
                Options := [ { ID := "c", Text := "C", Votes := 1 } ]
                CreatedAt := 4, ExpiresAt := 7 }) ] }

/-- A three-poll store with distinct creation times 1 < 2 < 3. -/
def threeStore : Store :=
  { polls :=
      [ ("t1", { ID := "t1", Question := "one", Options := [], CreatedAt := 1, ExpiresAt := 0 })
      , ("t2", { ID := "t2", Question := "two", Options := [], CreatedAt := 2, ExpiresAt := 0 })
      , ("t3", { ID := "t3", Question := "three", Options := [], CreatedAt := 3, ExpiresAt := 0 }) ] }

/-- A poll whose single option has zero votes (zero total). -/
def zeroPoll : Poll :=
  { ID := "z", Question := "z?"
    Options := [ { ID := "x", Text := "X", Votes := 0 } ]
    CreatedAt := 0, ExpiresAt := 0 }

/-- Two listeners subscribed to the same key `"p"` (channels 0 and 1). -/
def twoSubs : Broadcaster :=
  ((NewBroadcaster.Subscribe "p").1.Subscribe "p").1

/-- A concrete heap holding the one stored poll of `sampleStore` at
address 0 (its options array at address 1), for the isolation witness. -/
def sampleHeap : Heap :=
  { pollMem := [ (0, { ID := "p", Question := "Q?", optsAddr := 1, CreatedAt := 10, ExpiresAt := 0 }) ]
    arrMem := [ (1, [ { ID := "a", Text := "A", Votes := 3 } ]) ]
    next := 2 }

/-! ## Association-list lemmas -/

@[simp] theorem lookupKey_nil [DecidableEq κ] (k : κ) :
    lookupKey (β := β) k [] = none := rfl

@[simp] theorem lookupKey_cons [DecidableEq κ] (k k' : κ) (v : β) (l : List (κ × β)) :
    lookupKey k ((k', v) :: l) = if k' = k then some v else lookupKey k l := rfl

@[simp] theorem eraseKey_nil [DecidableEq κ] (k : κ) :
    eraseKey (β := β) k [] = [] := rfl

theorem eraseKey_cons [DecidableEq κ] (k k' : κ) (v : β) (l : List (κ × β)) :
    eraseKey k ((k', v) :: l) =
      if k' = k then eraseKey k l else (k', v) :: eraseKey k l := by
  by_cases h : k' = k <;> simp [eraseKey, h]

theorem lookupKey_eraseKey_self [DecidableEq κ] (k : κ) (l : List (κ × β)) :
    lookupKey k (eraseKey k l) = none := by
  induction l with
  | nil => rfl
  | cons kv rest ih =>
    obtain ⟨k', v⟩ := kv
    rw [eraseKey_cons]
    by_cases h : k' = k
    · simpa [h] using ih
    · simpa [h] using ih

theorem lookupKey_eraseKey_ne [DecidableEq κ] (k a : κ) (l : List (κ × β)) (h : a ≠ k) :
    lookupKey a (eraseKey k l) = lookupKey a l := by
  induction l with
  | nil => rfl
  | cons kv rest ih =>
    obtain ⟨k', v⟩ := kv
    rw [eraseKey_cons]
    by_cases hk : k' = k
    · simpa [hk, Ne.symm h] using ih
    · by_cases ha : k' = a
      · simp [ha, h]
      · simpa [hk, ha] using ih

@[simp] theorem lookupKey_insertKey_self [DecidableEq κ] (k : κ) (v : β) (l : List (κ × β)) :
    lookupKey k (insertKey k v l) = some v := by
  simp [insertKey]

theorem lookupKey_insertKey_ne [DecidableEq κ] (k a : κ) (v : β) (l : List (κ × β))
    (h : a ≠ k) : lookupKey a (insertKey k v l) = lookupKey a l := by
  have : ¬ k = a := fun hc => h (hc ▸ rfl)
  simp [insertKey, this, lookupKey_eraseKey_ne k a l h]

theorem lookupKey_mem [DecidableEq κ] {k : κ} {v : β} {l : List (κ × β)}
    (h : lookupKey k l = some v) : (k, v) ∈ l := by
  induction l with
  | nil => simp at h
  | cons kv rest ih =>
    obtain ⟨k', v'⟩ := kv
    by_cases hk : k' = k
    · subst hk
      simp at h
      simp [h]
    · simp [hk] at h
      exact List.mem_cons_of_mem _ (ih h)

theorem mem_insertKey [DecidableEq κ] {k : κ} {v : β} {l : List (κ × β)} {kv : κ × β}
    (h : kv ∈ insertKey k v l) : kv = (k, v) ∨ kv ∈ l := by
  rcases List.mem_cons.mp h with h1 | h1
  · exact Or.inl h1
  · exact Or.inr (List.mem_of_mem_filter h1)

/-! ## Record-model lemmas -/

@[simp] theorem copyPoll_eq (p : Poll) : copyPoll p = p := by
  cases p
  simp [copyPoll]

/-! ## `incFirst` characterisation -/

theorem incFirst_eq_none {optionID : String} {l : List PollOption} :
    incFirst optionID l = none ↔ ∀ o ∈ l, o.ID ≠ optionID := by
  induction l with
  | nil => simp [incFirst]
  | cons opt rest ih =>
    by_cases h : opt.ID = optionID
    · simp [incFirst, h]
    · simp [incFirst, h, Option.map_eq_none', ih]

theorem incFirst_eq_some {optionID : String} {l l' : List PollOption}
    (h : incFirst optionID l = some l') :
    ∃ pre o post, l = pre ++ o :: post ∧ (∀ x ∈ pre, x.ID ≠ optionID) ∧
      o.ID = optionID ∧ l' = pre ++ { o with Votes := o.Votes + 1 } :: post := by
  induction l generalizing l' with
  | nil => simp [incFirst] at h
  | cons opt rest ih =>
    by_cases hid : opt.ID = optionID
    · refine ⟨[], opt, rest, by simp, by simp, hid, ?_⟩
      simp only [incFirst, if_pos hid, Option.some.injEq] at h
      simp [← h]
    · simp [incFirst, hid, Option.map_eq_some'] at h
      obtain ⟨r', hr', hl'⟩ := h
      obtain ⟨pre, o, post, hsplit, hpre, ho, hres⟩ := ih hr'
      exact ⟨opt :: pre, o, post, by simp [hsplit],
        by simpa [hid] using hpre, ho, by simp [← hl', hres]⟩

theorem incFirst_isSome {optionID : String} {l : List PollOption}
    (h : ∃ o ∈ l, o.ID = optionID) : ∃ l', incFirst optionID l = some l' := by
  cases he : incFirst optionID l with
  | none =>
    obtain ⟨o, ho, hid⟩ := h
    exact absurd hid (incFirst_eq_none.mp he o ho)
  | some l' => exact ⟨l', rfl⟩

/-! ## C2: the success path of `Vote` -/

/-- C2: when the store holds a non-expired poll `pollID` having an option
`optionID`, `Vote(pollID, optionID)` succeeds, increments exactly that
option's counter by 1 (the first match), leaves every other option and
every other field of the poll unchanged, leaves every other poll
unchanged, and returns a value copy of the updated poll.  -/
theorem vote_success (s : Store) (pollID optionID : String) (now : Nat) (poll : Poll)
    (hfind : lookupKey pollID s.polls = some poll)
    (hexp : poll.IsExpired now = false)
    (hopt : ∃ o ∈ poll.Options, o.ID = optionID) :
    ∃ pre o post,
      poll.Options = pre ++ o :: post ∧
      (∀ x ∈ pre, x.ID ≠ optionID) ∧ o.ID = optionID ∧
      Store.Vote s pollID optionID now =
        (Except.ok { poll with Options := pre ++ { o with Votes := o.Votes + 1 } :: post },
         { polls := insertKey pollID
             { poll with Options := pre ++ { o with Votes := o.Votes + 1 } :: post } s.polls }) ∧
      lookupKey pollID
          (insertKey pollID
            { poll with Options := pre ++ { o with Votes := o.Votes + 1 } :: post } s.polls) =
        some { poll with Options := pre ++ { o with Votes := o.Votes + 1 } :: post } ∧
      (∀ k, k ≠ pollID →
        lookupKey k
            (insertKey pollID
              { poll with Options := pre ++ { o with Votes := o.Votes + 1 } :: post } s.polls) =
          lookupKey k s.polls) := by
  obtain ⟨l', hl'⟩ := incFirst_isSome hopt
  obtain ⟨pre, o, post, hsplit, hpre, ho, hres⟩ := incFirst_eq_some hl'
  refine ⟨pre, o, post, hsplit, hpre, ho, ?_, by simp, ?_⟩
  · simp only [Store.Vote, hfind, hexp, Bool.false_eq_true, if_false, hl', hres, copyPoll_eq]
  · intro k hk
    exact lookupKey_insertKey_ne pollID k _ s.polls hk

/-- Witness for C2 on the concrete `sampleStore`: voting for option `"b"`
of poll `"p"`. -/
theorem vote_success_witness :
    ∃ pre o post,
      (({ ID := "p", Question := "Q?"
          Options :=
            [ { ID := "a", Text := "A", Votes := 3 }
            , { ID := "b", Text := "B", Votes := 5 } ]
          CreatedAt := 10, ExpiresAt := 0 } : Poll)).Options = pre ++ o :: post ∧
      (∀ x ∈ pre, x.ID ≠ "b") ∧ o.ID = "b" ∧
      Store.Vote sampleStore "p" "b" 20 =
        (Except.ok { ID := "p", Question := "Q?"
                     Options := pre ++ { o with Votes := o.Votes + 1 } :: post
                     CreatedAt := 10, ExpiresAt := 0 },
         { polls := insertKey "p"
             { ID := "p", Question := "Q?"
               Options := pre ++ { o with Votes := o.Votes + 1 } :: post
               CreatedAt := 10, ExpiresAt := 0 } sampleStore.polls }) ∧
      lookupKey "p"
          (insertKey "p"
            { ID := "p", Question := "Q?"
              Options := pre ++ { o with Votes := o.Votes + 1 } :: post
              CreatedAt := 10, ExpiresAt := 0 } sampleStore.polls) =
        some { ID := "p", Question := "Q?"
               Options := pre ++ { o with Votes := o.Votes + 1 } :: post
               CreatedAt := 10, ExpiresAt := 0 } ∧
      (∀ k, k ≠ "p" →
        lookupKey k
            (insertKey "p"
              { ID := "p", Question := "Q?"
                Options := pre ++ { o with Votes := o.Votes + 1 } :: post
                CreatedAt := 10, ExpiresAt := 0 } sampleStore.polls) =
          lookupKey k sampleStore.polls) :=
  vote_success sampleStore "p" "b" 20 _ (by decide) (by decide) (by decide)

/-! ## C3: the error paths of `Vote` -/

/-- C3: `Vote` fails with `pollNotFound` when the poll is absent; with
`pollExpired` when the poll exists and its expiry timestamp is set
(non-zero) and in the past — before the option is even looked up; with
`optionNotFound` when the poll exists, is not expired, and no option
matches; and in every error case the store (hence every counter in it) is
returned unchanged. -/
theorem vote_errors (s : Store) (pollID optionID : String) (now : Nat) :
    (lookupKey pollID s.polls = none →
      Store.Vote s pollID optionID now = (Except.error VoteError.pollNotFound, s)) ∧
    (∀ poll, lookupKey pollID s.polls = some poll →
      poll.ExpiresAt ≠ 0 → poll.ExpiresAt < now →
      Store.Vote s pollID optionID now = (Except.error VoteError.pollExpired, s)) ∧
    (∀ poll, lookupKey pollID s.polls = some poll →
      poll.IsExpired now = false → (∀ o ∈ poll.Options, o.ID ≠ optionID) →
      Store.Vote s pollID optionID now = (Except.error VoteError.optionNotFound, s)) := by
  refine ⟨?_, ?_, ?_⟩
  · intro hnone
    simp [Store.Vote, hnone]
  · intro poll hfind hz hlt
    have hexp : poll.IsExpired now = true := by
      simp [Poll.IsExpired, hz, hlt]
    simp [Store.Vote, hfind, hexp]
  · intro poll hfind hexp hnoopt
    have hnone : incFirst optionID poll.Options = none := incFirst_eq_none.mpr hnoopt
    simp [Store.Vote, hfind, hexp, hnone]

/-- Witness for C3 on `sampleStore`: a missing poll, the expired poll
`"q"` at `now = 20`, and a missing option of the live poll `"p"`. -/
theorem vote_errors_witness :
    Store.Vote sampleStore "nope" "a" 20 =
        (Except.error VoteError.pollNotFound, sampleStore) ∧
    Store.Vote sampleStore "q" "c" 20 =
        (Except.error VoteError.pollExpired, sampleStore) ∧
    Store.Vote sampleStore "p" "zzz" 20 =
        (Except.error VoteError.optionNotFound, sampleStore) := by
  refine ⟨(vote_errors sampleStore "nope" "a" 20).1 (by decide),
    (vote_errors sampleStore "q" "c" 20).2.1
      { ID := "q", Question := "old?"
        Options := [ { ID := "c", Text := "C", Votes := 1 } ]
        CreatedAt := 4, ExpiresAt := 7 } (by decide) (by decide) (by decide),
    (vote_errors sampleStore "p" "zzz" 20).2.2
      { ID := "p", Question := "Q?"
        Options :=
          [ { ID := "a", Text := "A", Votes := 3 }
          , { ID := "b", Text := "B", Votes := 5 } ]
        CreatedAt := 10, ExpiresAt := 0 } (by decide) (by decide) (by decide)⟩

/-! ## C10: `Create` with an existing identifier replaces silently -/

/-- C10: creating a record whose ID `X` is already stored succeeds (the
Go method has no error path) and silently replaces the stored poll: a
subsequent `Get X` returns the new record (its question and options,
stamped with the new creation time), so the old poll's counters are gone;
every other poll is untouched. -/
theorem create_replaces (s : Store) (old newPoll : Poll) (X gen : String) (now : Nat)
    (hX : newPoll.ID = X) (hne : X ≠ "")
    (hold : lookupKey X s.polls = some old) :
    (Store.Create s newPoll gen now).2 = { newPoll with CreatedAt := now } ∧
    Store.Get (Store.Create s newPoll gen now).1 X =
      some { newPoll with CreatedAt := now } ∧
    (∀ k, k ≠ X →
      lookupKey k (Store.Create s newPoll gen now).1.polls = lookupKey k s.polls) := by
  subst hX
  refine ⟨by simp [Store.Create, hne], by simp [Store.Create, Store.Get, hne], ?_⟩
  intro k hk
  simp only [Store.Create, if_neg hne]
  exact lookupKey_insertKey_ne _ k _ s.polls hk

/-- Witness for C10: re-creating poll `"p"` of `sampleStore` with a fresh
record discards the old votes. -/
theorem create_replaces_witness :
    (Store.Create sampleStore
        { ID := "p", Question := "new?"
          Options := [ { ID := "x", Text := "X", Votes := 0 }
                     , { ID := "y", Text := "Y", Votes := 0 } ]
          CreatedAt := 0, ExpiresAt := 0 } "gen" 42).2 =
      { ID := "p", Question := "new?"
        Options := [ { ID := "x", Text := "X", Votes := 0 }
                   , { ID := "y", Text := "Y", Votes := 0 } ]
        CreatedAt := 42, ExpiresAt := 0 } ∧
    Store.Get (Store.Create sampleStore
        { ID := "p", Question := "new?"
          Options := [ { ID := "x", Text := "X", Votes := 0 }
                     , { ID := "y", Text := "Y", Votes := 0 } ]
          CreatedAt := 0, ExpiresAt := 0 } "gen" 42).1 "p" =
      some { ID := "p", Question := "new?"
             Options := [ { ID := "x", Text := "X", Votes := 0 }
                        , { ID := "y", Text := "Y", Votes := 0 } ]
             CreatedAt := 42, ExpiresAt := 0 } ∧
    (∀ k, k ≠ "p" →
      lookupKey k (Store.Create sampleStore
          { ID := "p", Question := "new?"
            Options := [ { ID := "x", Text := "X", Votes := 0 }
                       , { ID := "y", Text := "Y", Votes := 0 } ]
            CreatedAt := 0, ExpiresAt := 0 } "gen" 42).1.polls =
        lookupKey k sampleStore.polls) :=
  create_replaces sampleStore
    { ID := "p", Question := "Q?"
      Options :=
        [ { ID := "a", Text := "A", Votes := 3 }
        , { ID := "b", Text := "B", Votes := 5 } ]
      CreatedAt := 10, ExpiresAt := 0 }
    { ID := "p", Question := "new?"
      Options := [ { ID := "x", Text := "X", Votes := 0 }
                 , { ID := "y", Text := "Y", Votes := 0 } ]
      CreatedAt := 0, ExpiresAt := 0 }
    "p" "gen" 42 (by decide) (by decide) (by decide)

/-! ## C9: vote percentages -/

theorem foldl_add_votes (c : Int) (l : List PollOption) :
    l.foldl (fun total opt => total + opt.Votes) c = c + (l.map PollOption.Votes).sum := by
  induction l generalizing c with
  | nil => simp
  | cons o rest ih => simp [ih, add_assoc]

theorem totalVotes_eq_sum (p : Poll) :
    p.TotalVotes = (p.Options.map PollOption.Votes).sum := by
  simpa using foldl_add_votes 0 p.Options

theorem find?_id_self {l : List PollOption} {o : PollOption}
    (hnd : (l.map PollOption.ID).Nodup) (ho : o ∈ l) :
    l.find? (fun x => decide (x.ID = o.ID)) = some o := by
  induction l with
  | nil => simp at ho
  | cons hd rest ih =>
    rw [List.map_cons, List.nodup_cons] at hnd
    rcases List.mem_cons.mp ho with rfl | hmem
    · simp [List.find?]
    · have hne : hd.ID ≠ o.ID := fun hc =>
        hnd.1 (hc ▸ List.mem_map_of_mem PollOption.ID hmem)
      exact (List.find?_cons_of_neg _ (by simpa using hne)).trans (ih hnd.2 hmem)

theorem sum_votes_cast (l : List PollOption) :
    (l.map (fun o => (o.Votes : Rat))).sum = ((l.map PollOption.Votes).sum : Rat) := by
  induction l with
  | nil => simp
  | cons o rest ih => simp [ih]

theorem percentage_sum (p : Poll) (hpos : 0 < p.TotalVotes)
    (hnd : (p.Options.map PollOption.ID).Nodup) :
    (p.Options.map (fun o => p.VotePercentage o.ID)).sum = 100 := by
  have hT : p.TotalVotes ≠ 0 := ne_of_gt hpos
  have hcast : (p.TotalVotes : Rat) ≠ 0 := Int.cast_ne_zero.mpr hT
  have hmap : p.Options.map (fun o => p.VotePercentage o.ID)
      = p.Options.map (fun o => (o.Votes : Rat) * (100 / (p.TotalVotes : Rat))) := by
    apply List.map_congr_left
    intro o ho
    rw [Poll.VotePercentage, if_neg hT, find?_id_self hnd ho]
    field_simp
  rw [hmap, List.sum_map_mul_right, sum_votes_cast, ← totalVotes_eq_sum, mul_comm]
  exact div_mul_cancel₀ 100 hcast

/-- C9: an option's percentage in a poll with zero total votes is 0; with
a positive total (and option IDs unique, the model invariant) the
percentages over all options sum to exactly 100; the worked 25-vote /
75-vote example yields exactly 25 and 75.  (Go's `float64` arithmetic is
modelled exactly over `Rat`; on the worked example the float results are
exact as well.) -/
theorem votePercentage_spec (p : Poll) (optionID : String) :
    (p.TotalVotes = 0 → p.VotePercentage optionID = 0) ∧
    (0 < p.TotalVotes → (p.Options.map PollOption.ID).Nodup →
      (p.Options.map (fun o => p.VotePercentage o.ID)).sum = 100) ∧
    samplePoll.VotePercentage "a" = 25 ∧ samplePoll.VotePercentage "b" = 75 := by
  refine ⟨fun h => by rw [Poll.VotePercentage, if_pos h],
    fun h1 h2 => percentage_sum p h1 h2, ?_, ?_⟩
  · have hf : List.find? (fun opt => decide (opt.ID = "a"))
        [ ({ ID := "a", Text := "A", Votes := 25 } : PollOption)
        , { ID := "b", Text := "B", Votes := 75 } ] =
        some { ID := "a", Text := "A", Votes := 25 } := rfl
    norm_num [Poll.VotePercentage, Poll.TotalVotes, samplePoll, hf]
  · have hf : List.find? (fun opt => decide (opt.ID = "b"))
        [ ({ ID := "a", Text := "A", Votes := 25 } : PollOption)
        , { ID := "b", Text := "B", Votes := 75 } ] =
        some { ID := "b", Text := "B", Votes := 75 } := rfl
    norm_num [Poll.VotePercentage, Poll.TotalVotes, samplePoll, hf]

/-- Witness for C9: the zero-total case at `zeroPoll` and the sum-to-100
case at `samplePoll`. -/
theorem votePercentage_spec_witness :
    zeroPoll.VotePercentage "x" = 0 ∧
    (samplePoll.Options.map (fun o => samplePoll.VotePercentage o.ID)).sum = 100 :=
  ⟨(votePercentage_spec zeroPoll "x").1 (by decide),
   (votePercentage_spec samplePoll "a").2.1 (by decide) (by decide)⟩

/-! ## C8: `List` returns copies sorted newest-first -/

theorem storeList_perm (s : Store) :
    (Store.List s).Perm (s.polls.map (fun kv => copyPoll kv.2)) :=
  List.perm_insertionSort newerEq _

theorem storeList_sorted (s : Store) : List.Sorted newerEq (Store.List s) :=
  List.sorted_insertionSort newerEq _

theorem storeList_strict (s : Store)
    (hnd : (s.polls.map (fun kv => kv.2.CreatedAt)).Nodup) :
    (Store.List s).Pairwise (fun p q => q.CreatedAt < p.CreatedAt) := by
  have hperm : ((Store.List s).map Poll.CreatedAt).Perm
      (s.polls.map (fun kv => kv.2.CreatedAt)) := by
    have := (storeList_perm s).map Poll.CreatedAt
    simpa [Function.comp] using this
  have hndL : ((Store.List s).map Poll.CreatedAt).Nodup := hperm.nodup_iff.mpr hnd
  have hne : (Store.List s).Pairwise (fun p q => p.CreatedAt ≠ q.CreatedAt) :=
    (List.pairwise_map).mp hndL
  exact ((storeList_sorted s).and hne).imp
    (fun h => lt_of_le_of_ne h.1 (fun hc => h.2 hc.symm))

theorem storeList_head (s : Store) (p3 : Poll)
    (hmem : p3 ∈ s.polls.map (fun kv => kv.2))
    (hmax : ∀ kv ∈ s.polls, kv.2 ≠ p3 → kv.2.CreatedAt < p3.CreatedAt) :
    (Store.List s).head? = some p3 := by
  have hmemL : p3 ∈ Store.List s := by
    refine (storeList_perm s).mem_iff.mpr ?_
    simpa [copyPoll_eq] using hmem
  cases hL : Store.List s with
  | nil => rw [hL] at hmemL; simp at hmemL
  | cons hd tl =>
    rw [hL] at hmemL
    have hsorted := storeList_sorted s
    rw [hL] at hsorted
    have hhd : ∀ x ∈ tl, newerEq hd x := (List.sorted_cons.mp hsorted).1
    by_cases he : hd = p3
    · simp [he]
    · have hhdmem : hd ∈ s.polls.map (fun kv => kv.2) := by
        have : hd ∈ Store.List s := by rw [hL]; exact List.mem_cons_self hd tl
        have h2 := (storeList_perm s).mem_iff.mp this
        simpa [copyPoll_eq] using h2
      obtain ⟨kv, hkv, hkv2⟩ := List.mem_map.mp hhdmem
      have hlt : hd.CreatedAt < p3.CreatedAt := by
        have := hmax kv hkv (by rw [hkv2]; exact he)
        rwa [hkv2] at this
      rcases List.mem_cons.mp hmemL with rfl | htl
      · exact absurd rfl he
      · have hle : p3.CreatedAt ≤ hd.CreatedAt := hhd p3 htl
        exact absurd (lt_of_le_of_lt hle hlt) (lt_irrefl _)

/-- C8: `List()` returns value copies of all stored polls, each exactly
once (a permutation of the stored records), sorted by creation timestamp
descending; when creation timestamps are distinct the order is strictly
descending, and the poll with the greatest creation time is first. -/
theorem list_spec (s : Store) :
    (Store.List s).Perm (s.polls.map (fun kv => copyPoll kv.2)) ∧
    List.Sorted newerEq (Store.List s) ∧
    ((s.polls.map (fun kv => kv.2.CreatedAt)).Nodup →
      (Store.List s).Pairwise (fun p q => q.CreatedAt < p.CreatedAt)) ∧
    (∀ p3, p3 ∈ s.polls.map (fun kv => kv.2) →
      (∀ kv ∈ s.polls, kv.2 ≠ p3 → kv.2.CreatedAt < p3.CreatedAt) →
      (Store.List s).head? = some p3) :=
  ⟨storeList_perm s, storeList_sorted s, storeList_strict s,
   fun p3 hmem hmax => storeList_head s p3 hmem hmax⟩

/-- Witness for C8 on `threeStore` (creation times 1 < 2 < 3): the list
is strictly descending and headed by the poll created at time 3. -/
theorem list_spec_witness :
    (Store.List threeStore).Pairwise (fun p q => q.CreatedAt < p.CreatedAt) ∧
    (Store.List threeStore).head? =
      some { ID := "t3", Question := "three", Options := [], CreatedAt := 3, ExpiresAt := 0 } :=
  ⟨(list_spec threeStore).2.2.1 (by decide),
   (list_spec threeStore).2.2.2
     { ID := "t3", Question := "three", Options := [], CreatedAt := 3, ExpiresAt := 0 }
     (by decide) (by decide)⟩

/-! ## C7: immutable shape, monotone counters -/

theorem evolves_refl (p : Poll) : evolves p p :=
  ⟨rfl, rfl, rfl, rfl, List.forall₂_same.mpr (fun _ _ => ⟨rfl, rfl, le_refl _⟩)⟩

theorem forall₂_optEvolves_trans {a b c : List PollOption}
    (h1 : List.Forall₂ optEvolves a b) (h2 : List.Forall₂ optEvolves b c) :
    List.Forall₂ optEvolves a c := by
  induction h1 generalizing c with
  | nil => cases h2; exact List.Forall₂.nil
  | cons hab h1' ih =>
    cases h2 with
    | cons hbc h2' =>
      exact List.Forall₂.cons
        ⟨hab.1.trans hbc.1, hab.2.1.trans hbc.2.1, hab.2.2.trans hbc.2.2⟩ (ih h2')

theorem evolves_trans {p q r : Poll} (h1 : evolves p q) (h2 : evolves q r) :
    evolves p r :=
  ⟨h1.1.trans h2.1, h1.2.1.trans h2.2.1, h1.2.2.1.trans h2.2.2.1,
   h1.2.2.2.1.trans h2.2.2.2.1, forall₂_optEvolves_trans h1.2.2.2.2 h2.2.2.2.2⟩

theorem vote_evolves (s : Store) (pid oid : String) (now : Nat) (x : String) (p0 : Poll)
    (h0 : lookupKey x s.polls = some p0) :
    ∃ p1, lookupKey x (Store.Vote s pid oid now).2.polls = some p1 ∧ evolves p0 p1 := by
  cases hfind : lookupKey pid s.polls with
  | none => exact ⟨p0, by simpa [Store.Vote, hfind] using h0, evolves_refl p0⟩
  | some poll =>
    by_cases hexp : poll.IsExpired now = true
    · exact ⟨p0, by simpa [Store.Vote, hfind, hexp] using h0, evolves_refl p0⟩
    · cases hinc : incFirst oid poll.Options with
      | none =>
        exact ⟨p0, by simpa [Store.Vote, hfind, hexp, hinc] using h0, evolves_refl p0⟩
      | some opts =>
        by_cases hx : x = pid
        · subst hx
          have hpoll : poll = p0 := by
            rw [h0] at hfind; exact (Option.some.inj hfind).symm
          subst hpoll
          obtain ⟨pre, o, post, hsplit, _, _, hres⟩ := incFirst_eq_some hinc
          refine ⟨{ poll with Options := opts },
            by simp [Store.Vote, hfind, hexp, hinc], ?_⟩
          refine ⟨rfl, rfl, rfl, rfl, ?_⟩
          rw [hres, hsplit]
          exact List.rel_append
            (List.forall₂_same.mpr (fun _ _ => ⟨rfl, rfl, le_refl _⟩))
            (List.Forall₂.cons ⟨rfl, rfl, (lt_add_one o.Votes).le⟩
              (List.forall₂_same.mpr (fun _ _ => ⟨rfl, rfl, le_refl _⟩)))
        · refine ⟨p0, ?_, evolves_refl p0⟩
          simp only [Store.Vote, hfind, hexp, Bool.false_eq_true, if_false, hinc]
          rw [lookupKey_insertKey_ne pid x _ s.polls hx]
          exact h0

theorem create_preserves (s : Store) (p : Poll) (gen : String) (now : Nat)
    (x : String) (p0 : Poll)
    (h0 : lookupKey x s.polls = some p0)
    (hfresh : lookupKey (createdID p gen) s.polls = none) :
    lookupKey x (Store.Create s p gen now).1.polls = some p0 := by
  have hne : x ≠ createdID p gen := by
    intro hc
    rw [hc, hfresh] at h0
    exact Option.noConfusion h0
  have hkey : (if p.ID = "" then { p with ID := gen } else p).ID = createdID p gen := by
    by_cases hid : p.ID = "" <;> simp [createdID, hid]
  simp only [Store.Create]
  rw [show ({ (if p.ID = "" then { p with ID := gen } else p) with CreatedAt := now } : Poll).ID
      = createdID p gen from hkey]
  rw [lookupKey_insertKey_ne _ x _ s.polls hne]
  exact h0

theorem delete_preserves (s : Store) (id x : String) (p0 : Poll)
    (h0 : lookupKey x s.polls = some p0) (hne : x ≠ id) :
    lookupKey x (Store.Delete s id).2.polls = some p0 := by
  cases hfind : lookupKey id s.polls with
  | none => simpa [Store.Delete, hfind] using h0
  | some q =>
    simp only [Store.Delete, hfind]
    rw [lookupKey_eraseKey_ne id x s.polls hne]
    exact h0

theorem applyOp_evolves (s : Store) (op : StoreOp) (x : String) (p0 : Poll)
    (h0 : lookupKey x s.polls = some p0)
    (hfresh : freshOK s op = true)
    (hpres : (lookupKey x (applyOp s op).polls).isSome = true) :
    ∃ p1, lookupKey x (applyOp s op).polls = some p1 ∧ evolves p0 p1 := by
  cases op with
  | create p gen now =>
    have hf : lookupKey (createdID p gen) s.polls = none := by
      simpa [freshOK, Option.isNone_iff_eq_none] using hfresh
    exact ⟨p0, create_preserves s p gen now x p0 h0 hf, evolves_refl p0⟩
  | vote pid oid now => exact vote_evolves s pid oid now x p0 h0
  | delete id =>
    by_cases hne : x = id
    · subst hne
      have hnone : lookupKey x (applyOp s (StoreOp.delete x)).polls = none := by
        simp only [applyOp, Store.Delete, h0]
        exact lookupKey_eraseKey_self x s.polls
      rw [hnone] at hpres
      simp at hpres
    · exact ⟨p0, delete_preserves s id x p0 h0 hne, evolves_refl p0⟩
  | get id => exact ⟨p0, h0, evolves_refl p0⟩
  | listAll => exact ⟨p0, h0, evolves_refl p0⟩

/-- C7: across any sequence of repository operations in which every
`Create` inserts under a fresh identifier (the spec's collision-resistant
generator assumption) and the poll `x` stays stored at every step (it
"remains stored"), the poll under `x` keeps its identifier, question,
option identifiers, texts, count and order, creation and expiry
timestamps, and no option's vote counter ever decreases — only vote
counters change at all. -/
theorem store_invariants (s : Store) (ops : List StoreOp) (x : String) (p0 : Poll)
    (h0 : lookupKey x s.polls = some p0)
    (hfresh : FreshCreates s ops = true)
    (hpres : PresentThrough x s ops = true) :
    ∃ p1, lookupKey x (runOps s ops).polls = some p1 ∧ evolves p0 p1 := by
  induction ops generalizing s p0 with
  | nil => exact ⟨p0, h0, evolves_refl p0⟩
  | cons op rest ih =>
    have hfresh' : freshOK s op = true ∧ FreshCreates (applyOp s op) rest = true := by
      have h1 : (freshOK s op && FreshCreates (applyOp s op) rest) = true := hfresh
      simpa using h1
    have hpres' : (lookupKey x (applyOp s op).polls).isSome = true ∧
        PresentThrough x (applyOp s op) rest = true := by
      have h1 : ((lookupKey x (applyOp s op).polls).isSome &&
          PresentThrough x (applyOp s op) rest) = true := hpres
      simpa using h1
    obtain ⟨p', hp', hev⟩ := applyOp_evolves s op x p0 h0 hfresh'.1 hpres'.1
    obtain ⟨p1, hp1, hev1⟩ := ih (applyOp s op) p' hp' hfresh'.2 hpres'.2
    exact ⟨p1, hp1, evolves_trans hev hev1⟩

/-- Witness for C7: on `sampleStore`, a fresh create, two votes, a vote
error, and a delete of the other poll leave `"p"` with its shape intact
and counters only increased. -/
theorem store_invariants_witness :
    ∃ p1, lookupKey "p" (runOps sampleStore
        [ StoreOp.vote "p" "a" 20
        , StoreOp.create { ID := "", Question := "new", Options := [], CreatedAt := 0, ExpiresAt := 0 } "fresh" 30
        , StoreOp.vote "p" "zzz" 31
        , StoreOp.delete "q"
        , StoreOp.vote "p" "a" 32 ]).polls = some p1 ∧
      evolves { ID := "p", Question := "Q?"
                Options :=
                  [ { ID := "a", Text := "A", Votes := 3 }
                  , { ID := "b", Text := "B", Votes := 5 } ]
                CreatedAt := 10, ExpiresAt := 0 } p1 :=
  store_invariants sampleStore _ "p" _ (by decide) (by decide) (by decide)

/-! ## C4: `Unsubscribe` -/

/-- Counterexample to C4 as stated: subscribe once to `"p"` (obtaining
channel 0), unsubscribe it — and unsubscribe it again.  Because the key
`"p"` still has a (now empty) listener-set map, the second call reaches
`close(ch)` on the already-closed channel and panics (`none`), so
unsubscribing an already-unsubscribed handle is a fault, not a no-op. -/
theorem unsubscribe_double_panics :
    (((NewBroadcaster.Subscribe "p").1.Unsubscribe "p"
        (NewBroadcaster.Subscribe "p").2).bind
      (fun b2 => b2.Unsubscribe "p" (NewBroadcaster.Subscribe "p").2)) = none := by
  decide

/-- C4 (amended): `Unsubscribe(key, handle)` removes the handle from the
key's listener set and closes its channel, and is a no-op when the key
has no listener-set map at all; but when the key's map exists (even
empty) it unconditionally closes the given handle's channel, so calling
it with an open registered handle succeeds exactly once and calling it
again for the same handle — or for any already-closed handle — faults
(close of a closed channel) instead of being a no-op. -/
theorem unsubscribe_spec (b : Broadcaster) (key : String) (ch : Nat) :
    (lookupKey key b.subscribers = none → b.Unsubscribe key ch = some b) ∧
    (∀ subs c, lookupKey key b.subscribers = some subs →
      lookupKey ch b.chans = some c → c.closed = false →
      ∃ b', b.Unsubscribe key ch = some b' ∧
        lookupKey key b'.subscribers = some (subs.filter (fun x => decide (x ≠ ch))) ∧
        lookupKey ch b'.chans = some { c with closed := true } ∧
        (∀ a, a ≠ ch → lookupKey a b'.chans = lookupKey a b.chans) ∧
        (∀ k2, k2 ≠ key → lookupKey k2 b'.subscribers = lookupKey k2 b.subscribers)) ∧
    (∀ subs c, lookupKey key b.subscribers = some subs →
      lookupKey ch b.chans = some c → c.closed = true →
      b.Unsubscribe key ch = none) := by
  refine ⟨?_, ?_, ?_⟩
  · intro hnone
    simp [Broadcaster.Unsubscribe, hnone]
  · intro subs c hsubs hch hopen
    refine ⟨{ b with
        subscribers := insertKey key (subs.filter (fun x => decide (x ≠ ch))) b.subscribers
        chans := insertKey ch { c with closed := true } b.chans },
      by simp [Broadcaster.Unsubscribe, hsubs, hch, hopen], by simp, by simp, ?_, ?_⟩
    · intro a ha
      exact lookupKey_insertKey_ne ch a _ b.chans ha
    · intro k2 hk2
      exact lookupKey_insertKey_ne key k2 _ b.subscribers hk2
  · intro subs c hsubs hch hclosed
    simp [Broadcaster.Unsubscribe, hsubs, hch, hclosed]

/-- Witness for C4's amended claim: unsubscribing the registered open
channel 0 of a one-listener broadcaster removes and closes it; a key with
no map is a no-op; a closed handle under a live key faults. -/
theorem unsubscribe_spec_witness :
    ((NewBroadcaster.Subscribe "p").1.Unsubscribe "other" 0 =
      some (NewBroadcaster.Subscribe "p").1) ∧
    (∃ b', (NewBroadcaster.Subscribe "p").1.Unsubscribe "p" 0 = some b' ∧
      lookupKey "p" b'.subscribers =
        some (([0] : List Nat).filter (fun x => decide (x ≠ 0))) ∧
      lookupKey 0 b'.chans = some { buf := [], cap := 10, closed := true } ∧
      (∀ a, a ≠ 0 →
        lookupKey a b'.chans = lookupKey a (NewBroadcaster.Subscribe "p").1.chans) ∧
      (∀ k2, k2 ≠ "p" →
        lookupKey k2 b'.subscribers =
          lookupKey k2 (NewBroadcaster.Subscribe "p").1.subscribers)) :=
  ⟨(unsubscribe_spec (NewBroadcaster.Subscribe "p").1 "other" 0).1 (by decide),
   (unsubscribe_spec (NewBroadcaster.Subscribe "p").1 "p" 0).2.1 [0]
     { buf := [], cap := 10, closed := false } (by decide) (by decide) (by decide)⟩

/-! ## C5: `Broadcast` -/

theorem broadcastList_spec (data : String) (chans : List (Nat × Chan)) (l : List Nat)
    (hnd : l.Nodup)
    (hopen : ∀ ch ∈ l, (lookupKey ch chans).map Chan.closed = some false) :
    ∃ chans', broadcastList data chans l = some chans' ∧
      (∀ ch ∈ l, ∀ c, lookupKey ch chans = some c →
        lookupKey ch chans' =
          some (if c.buf.length < c.cap then { c with buf := c.buf ++ [data] } else c)) ∧
      (∀ a, a ∉ l → lookupKey a chans' = lookupKey a chans) := by
  induction l generalizing chans with
  | nil => exact ⟨chans, rfl, by simp, fun a _ => rfl⟩
  | cons ch rest ih =>
    obtain ⟨c, hc, hcl⟩ := Option.map_eq_some'.mp (hopen ch (List.mem_cons_self ch rest))
    have hnd' := List.nodup_cons.mp hnd
    have hsend : trySend data c =
        some (if c.buf.length < c.cap then { c with buf := c.buf ++ [data] } else c) := by
      rw [trySend, if_neg (by simp [hcl])]
      exact (apply_ite some _ _ _).symm
    have hopen' : ∀ a ∈ rest,
        (lookupKey a (insertKey ch
          (if c.buf.length < c.cap then { c with buf := c.buf ++ [data] } else c) chans)).map
            Chan.closed = some false := by
      intro a ha
      have hne : a ≠ ch := fun hc' => hnd'.1 (hc' ▸ ha)
      rw [lookupKey_insertKey_ne ch a _ chans hne]
      exact hopen a (List.mem_cons_of_mem ch ha)
    obtain ⟨chans', hrun, hupd, hfr⟩ := ih _ hnd'.2 hopen'
    refine ⟨chans', ?_, ?_, ?_⟩
    · simp only [broadcastList, hc, hsend]
      exact hrun
    · intro a ha cc hcc
      rcases List.mem_cons.mp ha with rfl | hmem
      · rw [hc] at hcc
        obtain rfl : c = cc := Option.some.inj hcc
        rw [hfr a hnd'.1]
        simp
      · have hne : a ≠ ch := fun h' => hnd'.1 (h' ▸ hmem)
        have hcc' : lookupKey a (insertKey ch
            (if c.buf.length < c.cap then { c with buf := c.buf ++ [data] } else c) chans) =
            some cc := by
          rw [lookupKey_insertKey_ne ch a _ chans hne]
          exact hcc
        exact hupd a hmem cc hcc'
    · intro a ha
      have hne : a ≠ ch := fun h' => ha (h' ▸ List.mem_cons_self ch rest)
      rw [hfr a (fun h' => ha (List.mem_cons_of_mem ch h')),
        lookupKey_insertKey_ne ch a _ chans hne]

/-- C5: `Broadcast(key, payload)` is a no-op (and no error) when the key
has no listener map; otherwise, for every listener registered under the
key (each an open channel — registered handles are live listeners), the
payload is appended to its buffer when the buffer has room and silently
dropped when it is full, channels of other listeners are untouched and
the registry is unchanged — so two listeners of the same key with room
both receive the identical payload; and `Subscribe` creates each
listener's buffer empty with fixed capacity 10. -/
theorem broadcast_spec (b : Broadcaster) (key payload : String) :
    (lookupKey key b.subscribers = none → b.Broadcast key payload = some b) ∧
    (∀ subs, lookupKey key b.subscribers = some subs → subs.Nodup →
      (∀ ch ∈ subs, (lookupKey ch b.chans).map Chan.closed = some false) →
      ∃ b', b.Broadcast key payload = some b' ∧
        b'.subscribers = b.subscribers ∧
        (∀ ch ∈ subs, ∀ c, lookupKey ch b.chans = some c →
          lookupKey ch b'.chans =
            some (if c.buf.length < c.cap then { c with buf := c.buf ++ [payload] } else c)) ∧
        (∀ a, a ∉ subs → lookupKey a b'.chans = lookupKey a b.chans)) ∧
    (∀ pollID, lookupKey (b.Subscribe pollID).2 (b.Subscribe pollID).1.chans =
        some { buf := [], cap := 10, closed := false }) := by
  refine ⟨?_, ?_, ?_⟩
  · intro hnone
    simp [Broadcaster.Broadcast, hnone]
  · intro subs hsubs hnd hopen
    obtain ⟨chans', hrun, hupd, hfr⟩ := broadcastList_spec payload b.chans subs hnd hopen
    exact ⟨{ b with chans := chans' }, by simp [Broadcaster.Broadcast, hsubs, hrun],
      rfl, hupd, hfr⟩
  · intro pollID
    simp [Broadcaster.Subscribe]

/-- Witness for C5 on `twoSubs` (channels 1 and 0 both subscribed to
`"p"`, both open with room): one broadcast delivers the identical payload
to both buffers. -/
theorem broadcast_spec_witness :
    ∃ b', twoSubs.Broadcast "p" "hello" = some b' ∧
      b'.subscribers = twoSubs.subscribers ∧
      (∀ ch ∈ [1, 0], ∀ c, lookupKey ch twoSubs.chans = some c →
        lookupKey ch b'.chans =
          some (if c.buf.length < c.cap then { c with buf := c.buf ++ ["hello"] } else c)) ∧
      (∀ a, a ∉ [1, 0] → lookupKey a b'.chans = lookupKey a twoSubs.chans) :=
  (broadcast_spec twoSubs "p" "hello").2.1 [1, 0] (by decide) (by decide) (by decide)

/-! ## C6: snapshots are structurally independent copies -/

theorem readPoll_parts {h : Heap} {a : Nat} {P : Poll} (hP : h.readPoll a = some P) :
    ∃ m opts, lookupKey a h.pollMem = some m ∧
      lookupKey m.optsAddr h.arrMem = some opts ∧
      P = { ID := m.ID, Question := m.Question, Options := opts,
            CreatedAt := m.CreatedAt, ExpiresAt := m.ExpiresAt } := by
  rw [Heap.readPoll] at hP
  cases h1 : lookupKey a h.pollMem with
  | none => rw [h1] at hP; simp at hP
  | some m =>
    rw [h1] at hP
    simp only [Option.some_bind] at hP
    cases h2 : lookupKey m.optsAddr h.arrMem with
    | none => rw [h2] at hP; simp at hP
    | some opts =>
      rw [h2] at hP
      simp only [Option.map_some'] at hP
      exact ⟨m, opts, rfl, h2, (Option.some.inj hP).symm⟩

theorem readPoll_agree (h h' : Heap) (hwf : h.wf) (a : Nat) (P : Poll)
    (hP : h.readPoll a = some P)
    (hp : ∀ b, b < h.next → lookupKey b h'.pollMem = lookupKey b h.pollMem)
    (ha : ∀ b, b < h.next → lookupKey b h'.arrMem = lookupKey b h.arrMem) :
    h'.readPoll a = some P := by
  obtain ⟨m, opts, h1, h2, hPeq⟩ := readPoll_parts hP
  have ha1 : a < h.next := hwf.1 (a, m) (lookupKey_mem h1)
  have ha2 : m.optsAddr < h.next := hwf.2 (m.optsAddr, opts) (lookupKey_mem h2)
  rw [Heap.readPoll, hp a ha1, h1]
  simp [ha _ ha2, h2, hPeq]

theorem copyPollH_eq (h : Heap) (a : Nat) {m : PollMem} {opts : List PollOption}
    (h1 : lookupKey a h.pollMem = some m)
    (h2 : lookupKey m.optsAddr h.arrMem = some opts) :
    h.copyPollH a = some
      ({ pollMem := insertKey (h.next + 1) { m with optsAddr := h.next } h.pollMem
         arrMem := insertKey h.next opts h.arrMem
         next := h.next + 2 }, h.next + 1) := by
  simp [Heap.copyPollH, h1, h2]

theorem copy_heap_wf (h : Heap) (hwf : h.wf) (m : PollMem) (opts : List PollOption) :
    Heap.wf { pollMem := insertKey (h.next + 1) m h.pollMem
              arrMem := insertKey h.next opts h.arrMem
              next := h.next + 2 } := by
  constructor
  · intro kv hkv
    show kv.1 < h.next + 2
    rcases mem_insertKey hkv with he | hmem
    · have : kv.1 = h.next + 1 := by rw [he]
      omega
    · have := hwf.1 kv hmem; omega
  · intro kv hkv
    show kv.1 < h.next + 2
    rcases mem_insertKey hkv with he | hmem
    · have : kv.1 = h.next := by rw [he]
      omega
    · have := hwf.2 kv hmem; omega

/-- C6: a snapshot handed out by `Get` (the heap-level `lookup` plus
`copyPoll`, the same path `List` and `Vote` return through) lives at a
freshly allocated struct cell and array: it equals the stored record as a
value, and arbitrarily overwriting the snapshot's cell and its options
array (everything a caller can reach through the returned pointer) leaves
the stored record — and any other caller's snapshot — bit-for-bit
unchanged. -/
theorem copy_isolation (h : Heap) (sm : List (String × Nat)) (id : String)
    (pa : Nat) (P : Poll)
    (hwf : h.wf)
    (hpa : lookupKey id sm = some pa)
    (hP : h.readPoll pa = some P) :
    ∃ h1, h.hGet sm id = some (h1, h.next + 1) ∧
      h1.readPoll (h.next + 1) = some P ∧
      h1.readPoll pa = some P ∧
      (∀ m opts, (h1.writeSnap (h.next + 1) h.next m opts).readPoll pa = some P) ∧
      ∃ h2, h1.hGet sm id = some (h2, h1.next + 1) ∧
        h2.readPoll (h1.next + 1) = some P ∧
        (∀ m opts,
          (h2.writeSnap (h1.next + 1) h1.next m opts).readPoll pa = some P ∧
          (h2.writeSnap (h1.next + 1) h1.next m opts).readPoll (h.next + 1) = some P) := by
  obtain ⟨mP, optsP, hm, harr, hPeq⟩ := readPoll_parts hP
  have hpa_lt : pa < h.next := hwf.1 (pa, mP) (lookupKey_mem hm)
  have harr_lt : mP.optsAddr < h.next := hwf.2 (mP.optsAddr, optsP) (lookupKey_mem harr)
  set H1 : Heap :=
    { pollMem := insertKey (h.next + 1) { mP with optsAddr := h.next } h.pollMem
      arrMem := insertKey h.next optsP h.arrMem
      next := h.next + 2 } with hH1
  have hget1 : h.hGet sm id = some (H1, h.next + 1) := by
    rw [Heap.hGet, hpa]
    exact copyPollH_eq h pa hm harr
  have hwf1 : H1.wf := copy_heap_wf h hwf _ _
  have hagree1p : ∀ b, b < h.next → lookupKey b H1.pollMem = lookupKey b h.pollMem := by
    intro b hb
    exact lookupKey_insertKey_ne _ b _ h.pollMem (by omega)
  have hagree1a : ∀ b, b < h.next → lookupKey b H1.arrMem = lookupKey b h.arrMem := by
    intro b hb
    exact lookupKey_insertKey_ne _ b _ h.arrMem (by omega)
  have hread1 : H1.readPoll (h.next + 1) = some P := by
    rw [Heap.readPoll]
    have hself : lookupKey (h.next + 1) H1.pollMem =
        some { mP with optsAddr := h.next } := lookupKey_insertKey_self _ _ _
    rw [hself]
    simp [hPeq]
  have hreadpa : H1.readPoll pa = some P :=
    readPoll_agree h H1 hwf pa P hP hagree1p hagree1a
  have hlook1pa : lookupKey pa H1.pollMem = some mP := by
    rw [hagree1p pa hpa_lt]; exact hm
  have hlook1arr : lookupKey mP.optsAddr H1.arrMem = some optsP := by
    rw [hagree1a _ harr_lt]; exact harr
  refine ⟨H1, hget1, hread1, hreadpa, ?_, ?_⟩
  · intro m opts
    refine readPoll_agree h _ hwf pa P hP ?_ ?_
    · intro b hb
      rw [Heap.writeSnap]
      calc lookupKey b (insertKey (h.next + 1) m H1.pollMem)
          = lookupKey b H1.pollMem :=
            lookupKey_insertKey_ne _ b _ H1.pollMem (by omega)
        _ = lookupKey b h.pollMem := hagree1p b hb
    · intro b hb
      rw [Heap.writeSnap]
      calc lookupKey b (insertKey h.next opts H1.arrMem)
          = lookupKey b H1.arrMem :=
            lookupKey_insertKey_ne _ b _ H1.arrMem (by omega)
        _ = lookupKey b h.arrMem := hagree1a b hb
  · set H2 : Heap :=
      { pollMem := insertKey (H1.next + 1) { mP with optsAddr := H1.next } H1.pollMem
        arrMem := insertKey H1.next optsP H1.arrMem
        next := H1.next + 2 } with hH2
    have hget2 : H1.hGet sm id = some (H2, H1.next + 1) := by
      rw [Heap.hGet, hpa]
      exact copyPollH_eq H1 pa hlook1pa hlook1arr
    have hread2 : H2.readPoll (H1.next + 1) = some P := by
      rw [Heap.readPoll]
      have hself : lookupKey (H1.next + 1) H2.pollMem =
          some { mP with optsAddr := H1.next } := lookupKey_insertKey_self _ _ _
      rw [hself]
      simp [hPeq]
    have hnext1 : H1.next = h.next + 2 := rfl
    refine ⟨H2, hget2, hread2, ?_⟩
    intro m opts
    constructor
    · refine readPoll_agree h _ hwf pa P hP ?_ ?_
      · intro b hb
        rw [Heap.writeSnap]
        calc lookupKey b (insertKey (H1.next + 1) m H2.pollMem)
            = lookupKey b H2.pollMem :=
              lookupKey_insertKey_ne _ b _ H2.pollMem (by omega)
          _ = lookupKey b H1.pollMem :=
              lookupKey_insertKey_ne _ b _ H1.pollMem (by omega)
          _ = lookupKey b h.pollMem := hagree1p b hb
      · intro b hb
        rw [Heap.writeSnap]
        calc lookupKey b (insertKey H1.next opts H2.arrMem)
            = lookupKey b H2.arrMem :=
              lookupKey_insertKey_ne _ b _ H2.arrMem (by omega)
          _ = lookupKey b H1.arrMem :=
              lookupKey_insertKey_ne _ b _ H1.arrMem (by omega)
          _ = lookupKey b h.arrMem := hagree1a b hb
    · refine readPoll_agree H1 _ hwf1 (h.next + 1) P hread1 ?_ ?_
      · intro b hb
        rw [Heap.writeSnap]
        calc lookupKey b (insertKey (H1.next + 1) m H2.pollMem)
            = lookupKey b H2.pollMem :=
              lookupKey_insertKey_ne _ b _ H2.pollMem (by omega)
          _ = lookupKey b H1.pollMem :=
              lookupKey_insertKey_ne _ b _ H1.pollMem (by omega)
      · intro b hb
        rw [Heap.writeSnap]
        calc lookupKey b (insertKey H1.next opts H2.arrMem)
            = lookupKey b H2.arrMem :=
              lookupKey_insertKey_ne _ b _ H2.arrMem (by omega)
          _ = lookupKey b H1.arrMem :=
              lookupKey_insertKey_ne _ b _ H1.arrMem (by omega)

/-- Witness for C6 on `sampleHeap` (one stored poll at address 0, its
array at address 1, store map `[("p", 0)]`). -/
theorem copy_isolation_witness :
    ∃ h1, sampleHeap.hGet [("p", 0)] "p" = some (h1, sampleHeap.next + 1) ∧
      h1.readPoll (sampleHeap.next + 1) =
        some { ID := "p", Question := "Q?"
               Options := [ { ID := "a", Text := "A", Votes := 3 } ]
               CreatedAt := 10, ExpiresAt := 0 } ∧
      h1.readPoll 0 =
        some { ID := "p", Question := "Q?"
               Options := [ { ID := "a", Text := "A", Votes := 3 } ]
               CreatedAt := 10, ExpiresAt := 0 } ∧
      (∀ m opts, (h1.writeSnap (sampleHeap.next + 1) sampleHeap.next m opts).readPoll 0 =
        some { ID := "p", Question := "Q?"
               Options := [ { ID := "a", Text := "A", Votes := 3 } ]
               CreatedAt := 10, ExpiresAt := 0 }) ∧
      ∃ h2, h1.hGet [("p", 0)] "p" = some (h2, h1.next + 1) ∧
        h2.readPoll (h1.next + 1) =
          some { ID := "p", Question := "Q?"
                 Options := [ { ID := "a", Text := "A", Votes := 3 } ]
                 CreatedAt := 10, ExpiresAt := 0 } ∧
        (∀ m opts,
          (h2.writeSnap (h1.next + 1) h1.next m opts).readPoll 0 =
            some { ID := "p", Question := "Q?"
                   Options := [ { ID := "a", Text := "A", Votes := 3 } ]
                   CreatedAt := 10, ExpiresAt := 0 } ∧
          (h2.writeSnap (h1.next + 1) h1.next m opts).readPoll (sampleHeap.next + 1) =
            some { ID := "p", Question := "Q?"
                   Options := [ { ID := "a", Text := "A", Votes := 3 } ]
                   CreatedAt := 10, ExpiresAt := 0 }) :=
  copy_isolation sampleHeap [("p", 0)] "p" 0
    { ID := "p", Question := "Q?"
      Options := [ { ID := "a", Text := "A", Votes := 3 } ]
      CreatedAt := 10, ExpiresAt := 0 }
    (by unfold Heap.wf; decide) (by decide) (by decide)

/-! ## C1: no lost updates under concurrent `Vote` -/

theorem doneC_update_eq (ts : Fin n → TS) (t : Fin n) (v : TS)
    (h : (v = TS.written ∨ v = TS.finished) ↔ (ts t = TS.written ∨ ts t = TS.finished)) :
    doneC (Function.update ts t v) = doneC ts := by
  have hset : (Finset.univ.filter fun u =>
        Function.update ts t v u = TS.written ∨ Function.update ts t v u = TS.finished) =
      (Finset.univ.filter fun u => ts u = TS.written ∨ ts u = TS.finished) := by
    ext u
    by_cases hu : u = t
    · subst hu
      simp [Function.update_same, h]
    · simp [Function.update_noteq hu]
  rw [doneC, doneC, hset]

theorem doneC_update_succ (ts : Fin n → TS) (t : Fin n) (v : TS)
    (hold : ¬(ts t = TS.written ∨ ts t = TS.finished))
    (hnew : v = TS.written ∨ v = TS.finished) :
    doneC (Function.update ts t v) = doneC ts + 1 := by
  have hset : (Finset.univ.filter fun u =>
        Function.update ts t v u = TS.written ∨ Function.update ts t v u = TS.finished) =
      insert t (Finset.univ.filter fun u => ts u = TS.written ∨ ts u = TS.finished) := by
    ext u
    by_cases hu : u = t
    · subst hu
      simp [Function.update_same, hnew]
    · simp [Function.update_noteq hu, hu]
  rw [doneC, doneC, hset, Finset.card_insert_of_not_mem (by simp [hold])]

theorem vstep_inv {n k : Nat} {s s' : VState n} {a : VAct n}
    (h : vstep s a = some s') (hinv : VInv k s) : VInv k s' := by
  obtain ⟨hc, hl, hr⟩ := hinv
  cases a with
  | acquire t =>
    rw [vstep] at h
    by_cases hcond : s.ts t = TS.start ∧ s.lock = none
    · rw [if_pos hcond] at h
      obtain rfl := Option.some.inj h
      refine ⟨?_, ?_, ?_⟩
      · show s.counter = k + doneC (Function.update s.ts t TS.acquired)
        rw [doneC_update_eq s.ts t TS.acquired (by simp [hcond.1])]
        exact hc
      · intro u hu
        by_cases hut : u = t
        · subst hut; rfl
        · exfalso
          have hu' : s.ts u = TS.acquired ∨ (∃ v, s.ts u = TS.readDone v) ∨
              s.ts u = TS.written := by
            simpa [Function.update_noteq hut] using hu
          have hlk := hl u hu'
          rw [hcond.2] at hlk
          exact Option.noConfusion hlk
      · intro u v hv
        exfalso
        by_cases hut : u = t
        · subst hut
          simp [Function.update_same] at hv
        · simp only [Function.update_noteq hut] at hv
          have hlk := hl u (Or.inr (Or.inl ⟨v, hv⟩))
          rw [hcond.2] at hlk
          exact Option.noConfusion hlk
    · rw [if_neg hcond] at h
      exact Option.noConfusion h
  | readV t =>
    rw [vstep] at h
    by_cases hcond : s.ts t = TS.acquired ∧ s.lock = some t
    · rw [if_pos hcond] at h
      obtain rfl := Option.some.inj h
      refine ⟨?_, ?_, ?_⟩
      · show s.counter = k + doneC (Function.update s.ts t (TS.readDone s.counter))
        rw [doneC_update_eq s.ts t _ (by simp [hcond.1])]
        exact hc
      · intro u hu
        by_cases hut : u = t
        · subst hut
          exact hcond.2
        · have hu' : s.ts u = TS.acquired ∨ (∃ v, s.ts u = TS.readDone v) ∨
              s.ts u = TS.written := by
            simpa [Function.update_noteq hut] using hu
          exact hl u hu'
      · intro u v hv
        by_cases hut : u = t
        · subst hut
          simp only [Function.update_same] at hv
          cases hv
          rfl
        · simp only [Function.update_noteq hut] at hv
          exact hr u v hv
    · rw [if_neg hcond] at h
      exact Option.noConfusion h
  | writeV t =>
    rw [vstep] at h
    cases hts : s.ts t with
    | readDone v0 =>
      rw [hts] at h
      have h' : (if s.lock = some t then
          some { s with counter := v0 + 1, ts := Function.update s.ts t TS.written }
          else none) = some s' := h
      by_cases hlk : s.lock = some t
      · rw [if_pos hlk] at h'
        obtain rfl := Option.some.inj h'
        have hv0 : v0 = s.counter := hr t v0 hts
        refine ⟨?_, ?_, ?_⟩
        · show v0 + 1 = k + doneC (Function.update s.ts t TS.written)
          rw [doneC_update_succ s.ts t TS.written (by simp [hts]) (Or.inl rfl), hv0, hc,
            doneCount]
          omega
        · intro u hu
          by_cases hut : u = t
          · subst hut
            exact hlk
          · exfalso
            have hu' : s.ts u = TS.acquired ∨ (∃ v, s.ts u = TS.readDone v) ∨
                s.ts u = TS.written := by
              simpa [Function.update_noteq hut] using hu
            have hlk2 := hl u hu'
            rw [hlk] at hlk2
            have : t = u := by
              cases hlk2; rfl
            exact hut this.symm
        · intro u v hv
          exfalso
          by_cases hut : u = t
          · subst hut
            simp [Function.update_same] at hv
          · simp only [Function.update_noteq hut] at hv
            have hlk2 := hl u (Or.inr (Or.inl ⟨v, hv⟩))
            rw [hlk] at hlk2
            have : t = u := by
              cases hlk2; rfl
            exact hut this.symm
      · rw [if_neg hlk] at h'
        exact Option.noConfusion h'
    | start => rw [hts] at h; exact Option.noConfusion h
    | acquired => rw [hts] at h; exact Option.noConfusion h
    | written => rw [hts] at h; exact Option.noConfusion h
    | finished => rw [hts] at h; exact Option.noConfusion h
  | release t =>
    rw [vstep] at h
    by_cases hcond : s.ts t = TS.written ∧ s.lock = some t
    · rw [if_pos hcond] at h
      obtain rfl := Option.some.inj h
      refine ⟨?_, ?_, ?_⟩
      · show s.counter = k + doneC (Function.update s.ts t TS.finished)
        rw [doneC_update_eq s.ts t TS.finished (by simp [hcond.1])]
        exact hc
      · intro u hu
        exfalso
        by_cases hut : u = t
        · subst hut
          simp [Function.update_same] at hu
        · simp only [Function.update_noteq hut] at hu
          have hlk2 := hl u hu
          rw [hcond.2] at hlk2
          have : t = u := by
            cases hlk2; rfl
          exact hut this.symm
      · intro u v hv
        exfalso
        by_cases hut : u = t
        · subst hut
          simp [Function.update_same] at hv
        · simp only [Function.update_noteq hut] at hv
          have hlk2 := hl u (Or.inr (Or.inl ⟨v, hv⟩))
          rw [hcond.2] at hlk2
          have : t = u := by
            cases hlk2; rfl
          exact hut this.symm
    · rw [if_neg hcond] at h
      exact Option.noConfusion h

theorem vinit_inv (n k : Nat) : VInv k (vinit n k) := by
  refine ⟨?_, ?_, ?_⟩
  · show k = k + doneC (n := n) (fun _ => TS.start)
    have hz : doneC (n := n) (fun _ => TS.start) = 0 := by
      rw [doneC]
      simp
    rw [hz]
    omega
  · intro t ht
    simp [vinit] at ht
  · intro t v hv
    simp [vinit] at hv

theorem vrun_inv {n k : Nat} (acts : List (VAct n)) (s s' : VState n)
    (h : vrun s acts = some s') (hinv : VInv k s) : VInv k s' := by
  induction acts generalizing s with
  | nil =>
    rw [vrun] at h
    exact (Option.some.inj h) ▸ hinv
  | cons a rest ih =>
    rw [vrun] at h
    cases hs : vstep s a with
    | none => rw [hs] at h; exact Option.noConfusion h
    | some s1 =>
      rw [hs] at h
      exact ih s1 h (vstep_inv hs hinv)

theorem doneC_univ (ts : Fin n → TS) (hfin : ∀ t, ts t = TS.finished) :
    doneC ts = n := by
  rw [doneC, Finset.filter_true_of_mem (fun t _ => Or.inr (hfin t))]
  simp

theorem find?_append_of_none {p : PollOption → Bool} {pre l : List PollOption}
    (h : ∀ x ∈ pre, p x = false) : (pre ++ l).find? p = l.find? p := by
  induction pre with
  | nil => simp
  | cons x rest ih =>
    rw [List.cons_append, List.find?_cons_of_neg _ (by simp [h x (List.mem_cons_self x rest)]),
      ih (fun y hy => h y (List.mem_cons_of_mem x hy))]

theorem vote_once (s : Store) (pollID optionID : String) (now : Nat) (poll : Poll)
    (hfind : lookupKey pollID s.polls = some poll)
    (hexp : poll.IsExpired now = false)
    (hopt : ∃ o ∈ poll.Options, o.ID = optionID) :
    ∃ v poll', optionVotes s pollID optionID = some v ∧
      lookupKey pollID (Store.Vote s pollID optionID now).2.polls = some poll' ∧
      poll'.IsExpired now = false ∧
      (∃ o ∈ poll'.Options, o.ID = optionID) ∧
      optionVotes (Store.Vote s pollID optionID now).2 pollID optionID = some (v + 1) := by
  obtain ⟨l', hl'⟩ := incFirst_isSome hopt
  obtain ⟨pre, o, post, hsplit, hpre, ho, hres⟩ := incFirst_eq_some hl'
  have hfound : poll.Options.find? (fun x => decide (x.ID = optionID)) = some o := by
    rw [hsplit, find?_append_of_none (fun x hx => by simp [hpre x hx]),
      List.find?_cons_of_pos _ (by simp [ho])]
  have hfound' : (pre ++ { o with Votes := o.Votes + 1 } :: post).find?
      (fun x => decide (x.ID = optionID)) = some { o with Votes := o.Votes + 1 } := by
    rw [find?_append_of_none (fun x hx => by simp [hpre x hx]),
      List.find?_cons_of_pos _ (by simp [ho])]
  have hvote : (Store.Vote s pollID optionID now).2 =
      { polls := insertKey pollID
          { poll with Options := pre ++ { o with Votes := o.Votes + 1 } :: post } s.polls } := by
    simp only [Store.Vote, hfind, hexp, Bool.false_eq_true, if_false, hl', hres]
  refine ⟨o.Votes, { poll with Options := pre ++ { o with Votes := o.Votes + 1 } :: post },
    ?_, ?_, hexp, ?_, ?_⟩
  · rw [optionVotes, hfind]
    simp [hfound]
  · rw [hvote]
    exact lookupKey_insertKey_self _ _ _
  · exact ⟨{ o with Votes := o.Votes + 1 },
      List.mem_append_right pre (List.mem_cons_self _ post), ho⟩
  · rw [hvote, optionVotes]
    simp [hfound']

/-- C1: no lost updates.  Part one: each `Vote` caller's critical section
(acquire `s.mu`, read the counter, write it back incremented, release),
interleaved arbitrarily among `n` threads by any scheduler, always ends —
once every thread has finished — with the counter at its pre-existing
value plus exactly `n`: the mutex makes it impossible for two callers to
both read the same pre-increment value and both write back the same
post-increment value.  Part two: at the store level, `N` serialized
`Vote` calls (the order the mutex enforces) against the same existing,
non-expired option leave its counter at the pre-existing count plus
exactly `N`. -/
theorem no_lost_updates :
    (∀ (n k : Nat) (acts : List (VAct n)) (s' : VState n),
      vrun (vinit n k) acts = some s' → (∀ t, s'.ts t = TS.finished) →
      s'.counter = k + n) ∧
    (∀ (s : Store) (pollID optionID : String) (now NN : Nat) (poll : Poll),
      lookupKey pollID s.polls = some poll → poll.IsExpired now = false →
      (∃ o ∈ poll.Options, o.ID = optionID) →
      ∃ v, optionVotes s pollID optionID = some v ∧
        optionVotes (voteTimes pollID optionID now NN s) pollID optionID =
          some (v + (NN : Int))) := by
  constructor
  · intro n k acts s' hrun hfin
    have hinv := vrun_inv acts (vinit n k) s' hrun (vinit_inv n k)
    calc s'.counter = k + doneCount s' := hinv.1
      _ = k + n := by rw [doneCount, doneC_univ s'.ts hfin]
  · intro s pollID optionID now NN
    induction NN generalizing s with
    | zero =>
      intro poll hfind hexp hopt
      obtain ⟨v, _, hv, _, _, _, _⟩ := vote_once s pollID optionID now poll hfind hexp hopt
      exact ⟨v, hv, by simpa using hv⟩
    | succ m ih =>
      intro poll hfind hexp hopt
      obtain ⟨v, poll', hv, hfind', hexp', hopt', hv'⟩ :=
        vote_once s pollID optionID now poll hfind hexp hopt
      obtain ⟨v1, hv1, hfinal⟩ :=
        ih (Store.Vote s pollID optionID now).2 poll' hfind' hexp' hopt'
      obtain rfl : v + 1 = v1 := Option.some.inj (hv'.symm.trans hv1)
      refine ⟨v, hv, ?_⟩
      show optionVotes (voteTimes pollID optionID now m
        (Store.Vote s pollID optionID now).2) pollID optionID = some (v + ((m + 1 : Nat) : Int))
      rw [hfinal]
      congr 1
      push_cast
      ring

/-- Witness for C1: a single thread runs its four machine steps and the
counter ends at 0 + 1; and two serialized votes on `sampleStore`'s option
`"a"` take its counter from 3 to 3 + 2. -/
theorem no_lost_updates_witness :
    (vrun (vinit 1 0) [VAct.acquire 0, VAct.readV 0, VAct.writeV 0, VAct.release 0]).map
        (fun s' => s'.counter) = some (0 + 1) ∧
    (∃ v, optionVotes sampleStore "p" "a" = some v ∧
      optionVotes (voteTimes "p" "a" 20 2 sampleStore) "p" "a" = some (v + (2 : Nat))) := by
  constructor
  · cases hr : vrun (vinit 1 0) [VAct.acquire 0, VAct.readV 0, VAct.writeV 0, VAct.release 0] with
    | none =>
      have hs : (vrun (vinit 1 0)
          [VAct.acquire 0, VAct.readV 0, VAct.writeV 0, VAct.release 0]).isSome = true := by
        decide
      rw [hr] at hs
      simp at hs
    | some s' =>
      have hb : (vrun (vinit 1 0)
          [VAct.acquire 0, VAct.readV 0, VAct.writeV 0, VAct.release 0]).map allFinished =
          some true := by decide
      rw [hr] at hb
      have hfin : ∀ t, s'.ts t = TS.finished :=
        of_decide_eq_true (Option.some.inj hb)
      have := no_lost_updates.1 1 0
        [VAct.acquire 0, VAct.readV 0, VAct.writeV 0, VAct.release 0] s' hr hfin
      simp [this]
  · exact no_lost_updates.2 sampleStore "p" "a" 20 2
      { ID := "p", Question := "Q?"
        Options :=
          [ { ID := "a", Text := "A", Votes := 3 }
          , { ID := "b", Text := "B", Votes := 5 } ]
        CreatedAt := 10, ExpiresAt := 0 }
      (by decide) (by decide) (by decide)

end QuickPoll
